import Mathlib

/-!
Verification of the fusi-tools commit-message generation pipeline.

This file gives a shallow embedding of the core of the aiCommit feature:
the staged-change collector and classifier (GitService.analyzeChanges,
GitService.processSingleChange, GitService.getIndexStatuses,
GitService.getAllDiffs, GitService.parseDiffOutput), the prompt budgeter
(GitService.formatSmartDiff), the response parser (AiService.parseResponse,
AiService.fallbackParse, AiService.isValidCommitOption) and the concurrent
merge of generation branches (AiService.generateHybrid, AiService.sortOptions).

Strings are modelled as lists of characters (type Str below); JavaScript
string lengths count UTF-16 code units while Str lengths count code points,
which agree on all text the pipeline manipulates apart from astral-plane
characters. External effects (the git subprocess calls, the HTTPS requests)
are modelled as explicit parameters: a subprocess result is an
Except Unit Str (error = non-zero exit), and a generation branch outcome is
the option list its settled promise carried.
-/

namespace FusiTools

/-- JavaScript strings, modelled as lists of characters. -/
abbrev Str := List Char

/-- Embed a Lean string literal as a character list. -/
def str (s : String) : Str := s.data

/-- The JavaScript whitespace class (the set matched by the \s regex class
and trimmed by String.prototype.trim), restricted to the code points that
can occur in git or model output; the exotic Unicode space separators are
included for faithfulness. -/
def isJsWs (c : Char) : Bool :=
  let n := c.toNat
  n = 32 || n = 9 || n = 10 || n = 13 || n = 11 || n = 12 ||
  n = 0xa0 || n = 0x1680 || (0x2000 <= n && n <= 0x200a) ||
  n = 0x2028 || n = 0x2029 || n = 0x202f || n = 0x205f ||
  n = 0x3000 || n = 0xfeff

/-- Model of String.prototype.trim: drop whitespace from both ends. -/
def jsTrim (s : Str) : Str :=
  ((s.dropWhile isJsWs).reverse.dropWhile isJsWs).reverse

/-- Model of String.prototype.split with a single-character separator:
"a,b".split(",") gives ["a","b"], "".split(",") gives [""], a trailing
separator yields a trailing empty piece. -/
def splitOnChar (sep : Char) : Str → List Str
  | [] => [[]]
  | c :: cs =>
    let r := splitOnChar sep cs
    if c = sep then [] :: r
    else
      match r with
      | h :: t => (c :: h) :: t
      | [] => [[c]]

/-- Model of Array.prototype.join with a one-character separator. -/
def joinSep (sep : Char) : List Str → Str
  | [] => []
  | [x] => x
  | x :: xs => x ++ sep :: joinSep sep xs

/-- Model of String.prototype.includes (substring test). -/
def containsSub (hay pat : Str) : Bool :=
  match hay with
  | [] => pat.isEmpty
  | _ :: t => pat.isPrefixOf hay || containsSub t pat

/-- Model of the last `n` elements of a JavaScript array slice(-n):
the whole array when it is shorter than n. -/
def lastN (n : Nat) (l : List Str) : List Str := l.drop (l.length - n)

/-- ASCII uppercase map, modelling String.prototype.toUpperCase on the
unaccented output git emits. -/
def asciiUpper (c : Char) : Char :=
  if 'a' ≤ c && c ≤ 'z' then Char.ofNat (c.toNat - 32) else c

/-- ASCII lowercase map, modelling String.prototype.toLowerCase on file
extensions. -/
def asciiLower (c : Char) : Char :=
  if 'A' ≤ c && c ≤ 'Z' then Char.ofNat (c.toNat + 32) else c

/-- Model of String.prototype.toUpperCase for ASCII text. -/
def jsToUpper (s : Str) : Str := s.map asciiUpper

/-- Model of String.prototype.toLowerCase for ASCII text. -/
def jsToLower (s : Str) : Str := s.map asciiLower

/-- Decimal rendering of a natural number, as JavaScript template
interpolation of a number produces it. -/
def natStr (n : Nat) : Str := (Nat.repr n).data

/-- JavaScript Map.prototype.set: overwrite the value at an existing key in
place, otherwise append the new binding. -/
def mapSet (m : List (Str × Str)) (k v : Str) : List (Str × Str) :=
  if m.any (fun kv => kv.1 = k) then
    m.map (fun kv => if kv.1 = k then (k, v) else kv)
  else m ++ [(k, v)]

/-- JavaScript Map.prototype.get, as an Option. -/
def mapGet (m : List (Str × Str)) (k : Str) : Option Str :=
  (m.find? (fun kv => kv.1 = k)).map (fun kv => kv.2)

/-- Model of Node's path.basename for the POSIX-style relative paths the
collector produces (backslashes already normalised to slashes): the part
after the last slash. -/
def basename (p : Str) : Str :=
  ((p.reverse.takeWhile (fun c => c ≠ '/')).reverse)

/-- Model of Node's path.extname on a basename: the suffix from the last
dot, empty when there is no dot or the only dot is the leading one (hidden
files like .gitignore have no extension; the directory names "." and ".."
likewise). -/
def extname (fn : Str) : Str :=
  if fn = str ".." then [] else
  let rev := fn.reverse
  let ext := rev.takeWhile (fun c => c ≠ '.')
  if ext.length = rev.length then []        -- no dot at all
  else if ext.length + 1 = rev.length then [] -- the only dot is the first char
  else '.' :: ext.reverse

/-! ## GitService: data model and per-file classification (src git.ts, mature revision) -/

/-- One analysed staged file (interface SmartChange). -/
structure SmartChange where
  relativePath : Str
  status : Str
  content : Str
  additions : Nat
  deletions : Nat
  chars : Nat
  tokens : Nat
deriving DecidableEq

/-- The three dependency-lock filenames special-cased by processSingleChange. -/
def lockfileName (fn : Str) : Bool :=
  fn == str "package-lock.json" || fn == str "yarn.lock" || fn == str "pnpm-lock.yaml"

/-- The binary/asset extension list of processSingleChange. -/
def binaryExts : List Str :=
  [str ".png", str ".jpg", str ".jpeg", str ".gif", str ".svg", str ".ico",
   str ".woff", str ".woff2", str ".ttf", str ".eot",
   str ".mp4", str ".webm", str ".mp3", str ".wav",
   str ".zip", str ".tar", str ".gz", str ".7z", str ".pdf",
   str ".exe", str ".dll", str ".so", str ".dylib",
   str ".bin", str ".dat", str ".db", str ".sqlite"]

/-- binaryExts.includes(path.extname(fileName).toLowerCase()). -/
def hasBinaryExt (fn : Str) : Bool :=
  binaryExts.contains (jsToLower (extname fn))

/-- The minified/generated suffix test of processSingleChange. -/
def minifiedName (fn : Str) : Bool :=
  (str ".min.js").isSuffixOf fn || (str ".min.css").isSuffixOf fn ||
  (str ".map").isSuffixOf fn

/-- The content category a staged file is assigned by processSingleChange. -/
inductive Category where
  | deleted
  | lockfile
  | binary
  | generated
  | content
deriving DecidableEq

/-- The classification decision of processSingleChange, extracted: the guards
below appear in exactly this order in the code. -/
def categoryOf (fileName gitStatus : Str) : Category :=
  if (str "D").isPrefixOf gitStatus then .deleted
  else if lockfileName fileName then .lockfile
  else if hasBinaryExt fileName then .binary
  else if minifiedName fileName then .generated
  else .content

/-- A table-driven classifier written from the spec words: an ordered list of
(predicate, category) rules evaluated first-match-wins, falling back to the
content category. Used to state that the code applies its rules in the
priority order deleted, lockfile, binary, generated, content. -/
def firstMatch (rules : List ((Str → Str → Bool) × Category))
    (fileName gitStatus : Str) : Category :=
  match rules with
  | [] => .content
  | (p, cat) :: rest =>
    if p fileName gitStatus then cat else firstMatch rest fileName gitStatus

/-- The spec's priority-ordered rule table: deletion status, then lockfile
name, then binary extension, then minified/generated name. -/
def classifierRules : List ((Str → Str → Bool) × Category) :=
  [(fun _ st => (str "D").isPrefixOf st, .deleted),
   (fun fn _ => lockfileName fn, .lockfile),
   (fun fn _ => hasBinaryExt fn, .binary),
   (fun fn _ => minifiedName fn, .generated)]

/-- The canonical one-line marker each non-content category produces, as a
function of the category and the relative path alone. -/
def markerFor (cat : Category) (relativePath : Str) : Str :=
  match cat with
  | .deleted => str "[DELETED] " ++ relativePath
  | .lockfile => str "File Changed: " ++ relativePath ++ str " (dependency lockfile update)"
  | .binary => str "[BINARY/ASSET] " ++ relativePath
  | .generated => str "[MINIFIED/GENERATED] " ++ relativePath
  | .content => []

/-- The addition counter of processSingleChange's statistics loop: lines
starting with a plus that are not the +++ header. -/
def countAdditions (lines : List Str) : Nat :=
  (lines.filter (fun l => (str "+").isPrefixOf l && !((str "+++").isPrefixOf l))).length

/-- The deletion counter of processSingleChange's statistics loop. -/
def countDeletions (lines : List Str) : Nat :=
  (lines.filter (fun l => (str "-").isPrefixOf l && !((str "---").isPrefixOf l))).length

/-- GitService.processSingleChange. The subprocess fallback call
execGitDiff is the perFile parameter; cachedDiff models the optional
cachedDiffContent argument, and the JavaScript truthiness test
(cachedDiffContent || await execGitDiff) makes an empty cached diff fall
back to the per-file query as well. A perFile error is the thrown
exception caught by the surrounding try. -/
def processSingleChange (relativePath fileName gitStatus : Str)
    (cachedDiff : Option Str) (perFile : Str → Except Unit Str) : SmartChange :=
  if (str "D").isPrefixOf gitStatus then
    ⟨relativePath, str "已删除", str "[DELETED] " ++ relativePath, 0, 0, 0, 0⟩
  else if lockfileName fileName then
    ⟨relativePath, str "锁文件",
      str "File Changed: " ++ relativePath ++ str " (dependency lockfile update)", 0, 0, 0, 0⟩
  else if hasBinaryExt fileName then
    ⟨relativePath, str "二进制/媒体", str "[BINARY/ASSET] " ++ relativePath, 0, 0, 0, 0⟩
  else if minifiedName fileName then
    ⟨relativePath, str "压缩文件", str "[MINIFIED/GENERATED] " ++ relativePath, 0, 0, 0, 0⟩
  else
    let diffE : Except Unit Str :=
      match cachedDiff with
      | some d => if d.isEmpty then perFile relativePath else .ok d
      | none => perFile relativePath
    match diffE with
    | .error _ =>
      ⟨relativePath, str "完整", str "File: " ++ relativePath ++ str " (Error reading diff)",
        0, 0, 0, 0⟩
    | .ok diffContent =>
      let lines := splitOnChar '\n' diffContent
      let additions := countAdditions lines
      let deletions := countDeletions lines
      let chars := diffContent.length
      let tokens := (chars + 3) / 4
      let rest : SmartChange :=
        if lines.length > 1000 then
          ⟨relativePath, str "已截断",
            str "File: " ++ relativePath ++ str "\n" ++ joinSep '\n' (lines.take 800) ++
              str "\n... (content skipped) ...\n" ++ joinSep '\n' (lastN 50 lines),
            additions, deletions, chars, tokens⟩
        else
          ⟨relativePath, str "完整", str "File: " ++ relativePath ++ str "\n" ++ diffContent,
            additions, deletions, chars, tokens⟩
      if gitStatus = str "A" ∧ lines.length > 50 then
        ⟨relativePath, str "新增(已截断)",
          str "File: " ++ relativePath ++ str " (New File Truncated)\n" ++
            joinSep '\n' (lines.take 25) ++
            str "\n... (middle " ++ natStr (lines.length - 50) ++ str " lines skipped) ...\n" ++
            joinSep '\n' (lastN 25 lines),
          additions, deletions, chars, tokens⟩
      else rest

/-! ## GitService: the collector (status map, bulk diff split, analyzeChanges) -/

/-- GitService.getIndexStatuses, one line of the name-status output: split on
tabs, uppercase the first character of the status field, special-case R by
recording the destination path as added, otherwise record the last field
under the status letter. -/
def statusLineStep (m : List (Str × Str)) (line : Str) : List (Str × Str) :=
  let parts := splitOnChar '\t' line
  if parts.length ≥ 2 then
    let statusChar := jsToUpper ((parts.headD []).take 1)
    if statusChar = str "R" then
      if parts.length ≥ 3 then mapSet m (parts.getD 2 []) (str "A") else m
    else mapSet m (parts.getLastD []) statusChar
  else m

/-- GitService.getIndexStatuses: the result of the staged name-status query
folded into a path-to-status map. A non-zero exit (the Except error) is
caught and yields the empty map. -/
def getIndexStatuses (res : Except Unit Str) : List (Str × Str) :=
  match res with
  | .error _ => []
  | .ok output =>
    let lines := ((splitOnChar '\n' output).map jsTrim).filter (fun l => !l.isEmpty)
    lines.foldl statusLineStep []

/-- The text after the last occurrence of pat (the greedy first group of the
header regex leaves the shortest possible second group). -/
def afterLast (pat : Str) : Str → Option Str
  | [] => if pat.isEmpty then some [] else none
  | c :: t =>
    match afterLast pat t with
    | some r => some r
    | none => if pat.isPrefixOf (c :: t) then some ((c :: t).drop pat.length) else none

/-- The destination path parsed from a bulk-diff header line by the regex
matching diff --git a/(group1) b/(group2) anchored at both ends, group1
greedy: the b-path is whatever follows the last occurrence of the marker. -/
def diffHeaderFile (line : Str) : Option Str :=
  let pre := str "diff --git a/"
  if pre.isPrefixOf line then afterLast (str " b/") (line.drop pre.length)
  else none

/-- The two-state scan of GitService.parseDiffOutput: the current file key
(empty = the OUTSIDE_FILE state), the buffered lines, and the finished map. -/
structure DiffScan where
  currentFile : Str
  buffer : List Str
  map : List (Str × Str)

/-- The flush helper of parseDiffOutput: record the buffer under the current
file when both are non-empty. -/
def diffFlush (st : DiffScan) : List (Str × Str) :=
  if !st.currentFile.isEmpty && !st.buffer.isEmpty then
    mapSet st.map st.currentFile (joinSep '\n' st.buffer)
  else st.map

/-- One line of the parseDiffOutput scan: a header line flushes and restarts
the buffer (the header itself is buffered when its path parses); any other
line is buffered only while inside a file. -/
def diffStep (st : DiffScan) (line : Str) : DiffScan :=
  if (str "diff --git ").isPrefixOf line then
    let m := diffFlush st
    match diffHeaderFile line with
    | some f => if f.isEmpty then ⟨[], [], m⟩ else ⟨f, [line], m⟩
    | none => ⟨[], [], m⟩
  else if !st.currentFile.isEmpty then ⟨st.currentFile, st.buffer ++ [line], st.map⟩
  else st

/-- GitService.parseDiffOutput: split the bulk diff into per-file fragments. -/
def parseDiffOutput (fullOutput : Str) : List (Str × Str) :=
  diffFlush ((splitOnChar '\n' fullOutput).foldl diffStep ⟨[], [], []⟩)

/-- GitService.getAllDiffs: the bulk staged diff split per file; a non-zero
exit is caught and yields the empty map. -/
def getAllDiffs (res : Except Unit Str) : List (Str × Str) :=
  match res with
  | .error _ => []
  | .ok output => parseDiffOutput output

/-- The file-count ceiling MAX_FILES_FOR_DETAIL of analyzeChanges. -/
def MAX_FILES_FOR_DETAIL : Nat := 100

/-- The placeholder entry pushed for every file when the changeset exceeds
the file-count ceiling. -/
def tooManyPlaceholder (relativePath : Str) : SmartChange :=
  ⟨relativePath, str "TRUNCATED", str "[Pre-check] Too many files, content skipped.",
    0, 0, 0, 0⟩

/-- The per-file body of the analyzeChanges loop: the placeholder in
too-many-files mode, otherwise classification with the status defaulted to M
when the path is missing from the status map (JavaScript || also sends an
empty status string to the default). -/
def classifyOne (statusMap diffMap : List (Str × Str))
    (perFile : Str → Except Unit Str) (tooMany : Bool) (relativePath : Str) : SmartChange :=
  if tooMany then tooManyPlaceholder relativePath
  else
    let fileName := basename relativePath
    let gitStatus :=
      match mapGet statusMap relativePath with
      | some v => if v.isEmpty then str "M" else v
      | none => str "M"
    processSingleChange relativePath fileName gitStatus (mapGet diffMap relativePath) perFile

/-- GitService.analyzeChanges: none models the null return (no repository,
or nothing staged); otherwise one SmartChange per staged path, in order.
The repository state and the three git queries are explicit parameters. -/
def analyzeChanges (hasRepo : Bool) (statusRes bulkRes : Except Unit Str)
    (perFile : Str → Except Unit Str) (changes : List Str) : Option (List SmartChange) :=
  if !hasRepo then none
  else if changes.isEmpty then none
  else
    let statusMap := getIndexStatuses statusRes
    let diffMap := getAllDiffs bulkRes
    let tooMany : Bool := decide (changes.length > MAX_FILES_FOR_DETAIL)
    some (changes.map (classifyOne statusMap diffMap perFile tooMany))

/-! ## GitService: the prompt budgeter (formatSmartDiff) -/

/-- GitService.getDiffStat: the degraded stat summary, from the stat query
result. -/
def getDiffStat (statRes : Except Unit Str) : Str :=
  match statRes with
  | .ok output => str "Git Diff Stat (Summary Mode):\n" ++ output
  | .error _ => str "Failed to get git diff stat."

/-- The character budget MAX_CHARS of formatSmartDiff. -/
def MAX_CHARS : Nat := 200000

/-- The accumulation loop of formatSmartDiff: append each entry followed by
a newline, but return none (the stat fallback) as soon as the running length
plus the next entry would exceed the budget. The source computes each entry
with an if/else whose two branches both select change.content, so the entry
is the content directly. -/
def formatLoop (maxChars : Nat) : List SmartChange → Str → Option Str
  | [], acc => some acc
  | c :: restChanges, acc =>
    if acc.length + c.content.length > maxChars then none
    else formatLoop maxChars restChanges (acc ++ c.content ++ ['\n'])

/-- The check formatSmartDiff runs first: is this already the too-many-files
placeholder structure? -/
def tooManyMarker (c : SmartChange) : Bool :=
  c.status == str "TRUNCATED" && containsSub c.content (str "Too many files")

/-- GitService.formatSmartDiff: empty when there is no repository or no
change; the stat summary when the placeholder structure or the size breaker
fires; otherwise the trimmed accumulated entries. -/
def formatSmartDiff (hasRepo : Bool) (statRes : Except Unit Str)
    (changes : List SmartChange) : Str :=
  if !hasRepo || changes.isEmpty then []
  else if changes.any tooManyMarker then getDiffStat statRes
  else
    match formatLoop MAX_CHARS changes [] with
    | none => getDiffStat statRes
    | some total => jsTrim total

/-! ## AiService: JSON values and a model of JSON.parse -/

/-- A parsed JSON value (the result of a successful JSON.parse). A numeric
literal is kept as its raw text: no claim inspects numeric values, so the
JavaScript float conversion is not modelled. Object fields are kept in
first-definition order with later duplicate keys overwriting the value,
as JSON.parse builds them. -/
inductive Json where
  | null
  | bool (b : Bool)
  | num (raw : Str)
  | str (s : Str)
  | arr (elems : List Json)
  | obj (fields : List (Str × Json))

/-- Property assignment while building an object: overwrite the value at an
existing key in place, otherwise append. -/
def objSet (fields : List (Str × Json)) (k : Str) (v : Json) : List (Str × Json) :=
  if fields.any (fun kv => kv.1 = k) then
    fields.map (fun kv => if kv.1 = k then (k, v) else kv)
  else fields ++ [(k, v)]

/-- Property read on a built object. -/
def getField (fields : List (Str × Json)) (k : Str) : Option Json :=
  (fields.find? (fun kv => kv.1 = k)).map (fun kv => kv.2)

/-- The JSON insignificant-whitespace skipper (space, tab, newline, return). -/
def skipJWs (s : Str) : Str :=
  s.dropWhile (fun c => c = ' ' || c = '\t' || c = '\n' || c = '\r')

/-- One hex digit's value, by code point: decimal digits sit at 48-57,
lowercase a-f at 97-102, uppercase A-F at 65-70. -/
def hexVal (c : Char) : Option Nat :=
  let n := c.toNat
  if 48 ≤ n && n ≤ 57 then some (n - 48)
  else if 97 ≤ n && n ≤ 102 then some (n - 87)
  else if 65 ≤ n && n ≤ 70 then some (n - 55)
  else none

/-- The body of a JSON string literal, after its opening quote: the decoded
content and the rest of the input after the closing quote. Escapes follow
JSON.parse; a \uXXXX escape denoting a lone surrogate is outside Lean's
Char type and decodes to the null character (no claim exercises this). -/
def parseJStr : Str → Option (Str × Str)
  | [] => none
  | '"' :: rest => some ([], rest)
  | '\\' :: 'u' :: h1 :: h2 :: h3 :: h4 :: rest =>
    match hexVal h1, hexVal h2, hexVal h3, hexVal h4 with
    | some a, some b, some c, some d =>
      (parseJStr rest).map (fun p =>
        (Char.ofNat (a * 4096 + b * 256 + c * 16 + d) :: p.1, p.2))
    | _, _, _, _ => none
  | '\\' :: e :: rest =>
    let dec : Option Char :=
      if e = '"' then some '"'
      else if e = '\\' then some '\\'
      else if e = '/' then some '/'
      else if e = 'b' then some '\x08'
      else if e = 'f' then some '\x0c'
      else if e = 'n' then some '\n'
      else if e = 'r' then some '\r'
      else if e = 't' then some '\t'
      else none
    match dec with
    | some c => (parseJStr rest).map (fun p => (c :: p.1, p.2))
    | none => none
  | c :: rest =>
    if c.toNat < 0x20 then none
    else (parseJStr rest).map (fun p => (c :: p.1, p.2))

/-- A JSON numeric literal at the head of the input: the raw consumed text
and the rest. Grammar: -? (0 | [1-9][0-9]*) (. [0-9]+)? ([eE] [+-]? [0-9]+)? -/
def parseNum (s : Str) : Option (Str × Str) :=
  let sign : Str × Str := match s with | '-' :: t => (['-'], t) | _ => ([], s)
  let intPart : Option (Str × Str) :=
    match sign.2 with
    | '0' :: t => some (sign.1 ++ ['0'], t)
    | c :: t =>
      if c.isDigit then
        some (sign.1 ++ c :: t.takeWhile Char.isDigit, t.dropWhile Char.isDigit)
      else none
    | [] => none
  match intPart with
  | none => none
  | some (acc, r) =>
    let withFrac : Option (Str × Str) :=
      match r with
      | '.' :: t =>
        let ds := t.takeWhile Char.isDigit
        if ds.isEmpty then none
        else some (acc ++ '.' :: ds, t.dropWhile Char.isDigit)
      | _ => some (acc, r)
    match withFrac with
    | none => none
    | some (acc2, r2) =>
      match r2 with
      | e :: t =>
        if e = 'e' || e = 'E' then
          let signT : Str × Str :=
            match t with
            | '+' :: t2 => (['+'], t2)
            | '-' :: t2 => (['-'], t2)
            | _ => ([], t)
          let ds := signT.2.takeWhile Char.isDigit
          if ds.isEmpty then none
          else some (acc2 ++ e :: signT.1 ++ ds, signT.2.dropWhile Char.isDigit)
        else some (acc2, r2)
      | [] => some (acc2, r2)

mutual

/-- A JSON value at the head of the input (after skipping whitespace),
recursing on fuel. -/
def parseValue : Nat → Str → Option (Json × Str)
  | 0, _ => none
  | fuel + 1, s0 =>
    let s := skipJWs s0
    match s with
    | '{' :: rest =>
      (match skipJWs rest with
       | '}' :: r2 => some (.obj [], r2)
       | r1 => parseMembers fuel r1 [])
    | '[' :: rest =>
      (match skipJWs rest with
       | ']' :: r2 => some (.arr [], r2)
       | r1 => parseElems fuel r1 [])
    | '"' :: rest => (parseJStr rest).map (fun p => (Json.str p.1, p.2))
    | _ =>
      if (str "true").isPrefixOf s then some (.bool true, s.drop 4)
      else if (str "false").isPrefixOf s then some (.bool false, s.drop 5)
      else if (str "null").isPrefixOf s then some (.null, s.drop 4)
      else (parseNum s).map (fun p => (Json.num p.1, p.2))

/-- Array elements after the opening bracket of a non-empty array. -/
def parseElems : Nat → Str → List Json → Option (Json × Str)
  | 0, _, _ => none
  | fuel + 1, s, acc =>
    match parseValue fuel s with
    | none => none
    | some (v, r) =>
      match skipJWs r with
      | ',' :: r2 => parseElems fuel r2 (acc ++ [v])
      | ']' :: r2 => some (.arr (acc ++ [v]), r2)
      | _ => none

/-- Object members after the opening brace of a non-empty object. -/
def parseMembers : Nat → Str → List (Str × Json) → Option (Json × Str)
  | 0, _, _ => none
  | fuel + 1, s, acc =>
    match s with
    | '"' :: rest =>
      (match parseJStr rest with
       | none => none
       | some (k, r) =>
         match skipJWs r with
         | ':' :: r2 =>
           (match parseValue fuel r2 with
            | none => none
            | some (v, r3) =>
              let acc2 := objSet acc k v
              match skipJWs r3 with
              | ',' :: r4 => parseMembers fuel (skipJWs r4) acc2
              | '}' :: r4 => some (.obj acc2, r4)
              | _ => none)
         | _ => none)
    | _ => none

end

/-- Model of JSON.parse: none is a thrown SyntaxError. The fuel is ample:
every two recursion steps consume at least one input character. -/
def jsonParse (s : Str) : Option Json :=
  match parseValue (2 * s.length + 4) s with
  | some (v, rest) => if (skipJWs rest).isEmpty then some v else none
  | none => none

/-! ## AiService: response cleaning and parsing (parseResponse, fallbackParse) -/

/-- Case-insensitive literal prefix test (the i flag of the fence regex). -/
def ciPrefix : Str → Str → Bool
  | [], _ => true
  | p :: ps, c :: cs => (asciiLower p = asciiLower c) && ciPrefix ps cs
  | _ :: _, [] => false

/-- Global case-insensitive removal of a non-empty literal pattern
(p :: ps), modelling replace with the gi flags and an empty replacement:
scan left to right, skip each match, never rescan produced text. The fuel
argument makes the recursion structural; every step consumes at least one
character, so the wrapper's fuel is ample. -/
def removeAllCIAux (p : Char) (ps : Str) : Nat → Str → Str
  | 0, s => s
  | _ + 1, [] => []
  | fuel + 1, c :: t =>
    if ciPrefix (p :: ps) (c :: t) then removeAllCIAux p ps fuel (t.drop ps.length)
    else c :: removeAllCIAux p ps fuel t

/-- The case-insensitive global replacement, with ample fuel. -/
def removeAllCI (p : Char) (ps : Str) (s : Str) : Str :=
  removeAllCIAux p ps (s.length + 1) s

/-- Global case-sensitive removal of a non-empty literal pattern, modelling
replace with the g flag and an empty replacement; fuel as in
removeAllCIAux. -/
def removeAllLitAux (p : Char) (ps : Str) : Nat → Str → Str
  | 0, s => s
  | _ + 1, [] => []
  | fuel + 1, c :: t =>
    if (p :: ps).isPrefixOf (c :: t) then removeAllLitAux p ps fuel (t.drop ps.length)
    else c :: removeAllLitAux p ps fuel t

/-- The case-sensitive global replacement, with ample fuel. -/
def removeAllLit (p : Char) (ps : Str) (s : Str) : Str :=
  removeAllLitAux p ps (s.length + 1) s

/-- Global replacement of a comma followed by whitespace and the given
closing bracket by the bare bracket (the trailing-comma fixups); fuel as in
removeAllCIAux. -/
def commaCollapseAux (close : Char) : Nat → Str → Str
  | 0, s => s
  | _ + 1, [] => []
  | fuel + 1, c :: t =>
    if c = ',' then
      match t.dropWhile isJsWs with
      | c2 :: r2 =>
        if c2 = close then close :: commaCollapseAux close fuel r2
        else ',' :: commaCollapseAux close fuel t
      | [] => ',' :: commaCollapseAux close fuel t
    else c :: commaCollapseAux close fuel t

/-- The trailing-comma global replacement, with ample fuel. -/
def commaCollapse (close : Char) (s : Str) : Str :=
  commaCollapseAux close (s.length + 1) s

/-- The outermost bracketed substring: the greedy anchored-nowhere regex
matching a literal open bracket, anything, a literal close bracket, finds
the span from the first open bracket to the last close bracket when the
latter comes later; with no match the text is left unchanged. -/
def extractArray (s : Str) : Str :=
  match s.findIdx? (fun c => c = '['), s.reverse.findIdx? (fun c => c = ']') with
  | some i, some jr =>
    let j := s.length - 1 - jr
    if i < j then (s.drop i).take (j - i + 1) else s
  | _, _ => s

/-- The cleaning pipeline of AiService.parseResponse, in source order: strip
the json-tagged fences case-insensitively, strip the remaining fences, trim,
collapse trailing commas before both bracket kinds, then extract the
outermost bracketed substring. -/
def cleanedOf (content : Str) : Str :=
  let c1 := removeAllCI '`' (str "``json") content
  let c2 := removeAllLit '`' (str "``") c1
  let c3 := jsTrim c2
  let c4 := commaCollapse ']' c3
  let c5 := commaCollapse '}' c4
  extractArray c5

/-- AiService.isValidCommitOption: the value is an object whose type and
message properties are strings (an emptiness test is not performed). -/
def isValidCommitOption : Json → Bool
  | .obj fields =>
    (match getField fields (str "type") with
     | some (.str _) => true
     | _ => false) &&
    (match getField fields (str "message") with
     | some (.str _) => true
     | _ => false)
  | _ => false

/-! The salvage regex of AiService.fallbackParse, as a dedicated matcher.
The pattern is an open brace, a greedy run without braces, the literal
quoted key type with a non-empty quoted value, comma, quoted key
description with a quoted value, comma, quoted key message with a quoted
value, a run without braces, and a close brace; the whitespace stars around
the punctuation are deterministic maximal munches because each is followed
by a non-whitespace literal, and the quoted-value bodies likewise cannot
contain their closing quote. Only the run before the type key needs
backtracking, which the JavaScript engine resolves greedily: the longest
prefix wins. -/

/-- One literal character. -/
def matchChar (c : Char) : Str → Option Str
  | x :: r => if x = c then some r else none
  | [] => none

/-- A literal string. -/
def matchLit (pat : Str) (s : Str) : Option Str :=
  if pat.isPrefixOf s then some (s.drop pat.length) else none

/-- A quoted value: opening quote, a body without quotes (non-empty unless
allowEmpty), closing quote. -/
def matchQuoted (allowEmpty : Bool) (s : Str) : Option Str :=
  match matchChar '"' s with
  | none => none
  | some r =>
    let body := r.takeWhile (fun c => c ≠ '"')
    if !allowEmpty && body.isEmpty then none
    else matchChar '"' (r.drop body.length)

/-- The deterministic tail of the salvage pattern, from the position where
the quoted type key must start. -/
def matchTail (s : Str) : Option Str := do
  let r1 ← matchLit (str "\"type\"") s
  let r2 ← matchChar ':' (r1.dropWhile isJsWs)
  let r3 ← matchQuoted false (r2.dropWhile isJsWs)
  let r4 ← matchChar ',' (r3.dropWhile isJsWs)
  let r5 ← matchLit (str "\"description\"") (r4.dropWhile isJsWs)
  let r6 ← matchChar ':' (r5.dropWhile isJsWs)
  let r7 ← matchQuoted true (r6.dropWhile isJsWs)
  let r8 ← matchChar ',' (r7.dropWhile isJsWs)
  let r9 ← matchLit (str "\"message\"") (r8.dropWhile isJsWs)
  let r10 ← matchChar ':' (r9.dropWhile isJsWs)
  let r11 ← matchQuoted true (r10.dropWhile isJsWs)
  let tl := r11.takeWhile (fun c => c ≠ '{' && c ≠ '}')
  matchChar '}' (r11.drop tl.length)

/-- Greedy resolution of the leading braceless run: try splitting after k
characters, largest k first. -/
def tryFrom (cs : Str) : Nat → Option Str
  | 0 => matchTail cs
  | k + 1 =>
    match matchTail (cs.drop (k + 1)) with
    | some rest => some rest
    | none => tryFrom cs k

/-- A salvage-pattern match anchored at the head of the input, returning the
rest after the match. -/
def matchAt (s : Str) : Option Str :=
  match s with
  | '{' :: cs =>
    tryFrom cs ((cs.takeWhile (fun c => c ≠ '{' && c ≠ '}')).length)
  | _ => none

/-- Global scan (the g flag): leftmost matches, resuming after each match;
a position without a match advances one character. Every match consumes at
least two characters, so the fuel is ample. -/
def scanMatches (fuel : Nat) (s : Str) : List Str :=
  match fuel with
  | 0 => []
  | fuel + 1 =>
    match s with
    | [] => []
    | _ :: cs =>
      match matchAt s with
      | some rest => (s.take (s.length - rest.length)) :: scanMatches fuel rest
      | none => scanMatches fuel cs

/-- String.prototype.match with the salvage pattern and the g flag: the list
of matched substrings (empty for a null result). -/
def regexMatches (s : Str) : List Str := scanMatches (s.length + 1) s

/-- AiService.fallbackParse: parse each matched fragment individually, keep
the well-formed valid ones, ignore the rest. -/
def fallbackParse (content : Str) : List Json :=
  (regexMatches content).foldl
    (fun results m =>
      match jsonParse m with
      | some o => if isValidCommitOption o then results ++ [o] else results
      | none => results) []

/-- AiService.parseResponse: clean, parse, validate; a parse failure falls
back to the salvage scan over the original content; nothing throws. -/
def parseResponse (content : Str) : List Json :=
  match jsonParse (cleanedOf content) with
  | some (.arr xs) => xs.filter isValidCommitOption
  | some (.obj fields) => if isValidCommitOption (.obj fields) then [.obj fields] else []
  | some _ => []
  | none => fallbackParse content

/-! ## AiService: the hybrid orchestrator (generateHybrid, sortOptions) -/

/-- A structured commit-message candidate. -/
structure CommitOption where
  type : Str
  description : Str
  message : Str
deriving DecidableEq

/-- The display priority of a type tag in AiService.sortOptions: its index
in the fixed order list, 99 when absent. -/
def typePriority (t : Str) : Nat :=
  (([str "Emoji", str "Conventional", str "Smart", str "Detailed"].findIdx?
      (fun x => x = t)).getD 99)

/-- Stable insertion of one option after all options of priority at most its
own. -/
def insertByPriority (o : CommitOption) : List CommitOption → List CommitOption
  | [] => [o]
  | h :: t =>
    if typePriority h.type ≤ typePriority o.type then h :: insertByPriority o t
    else o :: h :: t

/-- AiService.sortOptions. Array.prototype.sort with the consistent
comparator on type priorities is a stable sort, whose output the stable
insertion sort below reproduces exactly. -/
def sortOptions (l : List CommitOption) : List CommitOption :=
  l.foldl (fun acc o => insertByPriority o acc) []

/-- The two branch completions of AiService.generateHybrid. -/
inductive BranchEvent where
  | fastDone
  | deepDone
deriving DecidableEq

/-- The shared results array may hold the JavaScript undefined: when the
deep branch's call fails, callApi catches and resolves with the empty list,
so fetchDetailedOption resolves with its missing first element and the
continuation pushes undefined into the array. An entry none is that
undefined hole; some o is a real option. -/
abbrev ResultSlot := Option CommitOption

/-- Array.prototype.sort over an array that may hold undefined entries:
the comparator is never called with undefined — the specification moves
every undefined element to the end of the result — and the defined
elements are sorted stably by the comparator, here reproduced by the
stable insertion sort. -/
def jsSortWithHoles (l : List ResultSlot) : List ResultSlot :=
  ((sortOptions (l.filterMap id)).map some) ++ List.replicate (l.count none) none

/-- The shared-accumulator mutation run by one settling branch, read off
generateHybrid: the fast branch splices the options its call resolved with
(the empty list when the call failed) in at index zero and publishes
without sorting; the deep branch pushes the first element of the list its
call resolved with — the undefined hole when that list is empty, since
fetchDetailedOption never rejects — and re-sorts the whole array. -/
def branchStep (fastOpts : List CommitOption) (deepOpts : List CommitOption)
    (results : List ResultSlot) : BranchEvent → List ResultSlot
  | .fastDone => fastOpts.map some ++ results
  | .deepDone => jsSortWithHoles (results ++ [deepOpts.head?])

/-- The accumulator after the branches of one generateHybrid invocation
settle in the given order (branch completions are non-preemptive, so a run
is a sequence of branchStep applications starting from the empty list). -/
def runSchedule (fastOpts : List CommitOption) (deepOpts : List CommitOption)
    (sched : List BranchEvent) : List ResultSlot :=
  sched.foldl (branchStep fastOpts deepOpts) []

/-- The canonical order the spec requires of every published list. -/
def prioritySorted (l : List CommitOption) : Prop :=
  l.Pairwise (fun a b => typePriority a.type ≤ typePriority b.type)

/-! ## Support definitions for the verification statements -/

/-- The localized status tag each non-content category carries. -/
def statusFor (cat : Category) : Str :=
  match cat with
  | .deleted => str "已删除"
  | .lockfile => str "锁文件"
  | .binary => str "二进制/媒体"
  | .generated => str "压缩文件"
  | .content => []

/-- The running accumulated length after some prefix of entries has been
appended by the formatSmartDiff loop: each entry contributes its content
plus the separating newline. -/
def entriesLen (cs : List SmartChange) : Nat :=
  (cs.map (fun c => c.content.length + 1)).sum

/-- The type property of a parsed option, when it is a string. -/
def typeFieldOf (j : Json) : Option Str :=
  match j with
  | .obj f =>
    (match getField f (str "type") with
     | some (.str s) => some s
     | _ => none)
  | _ => none

/-- The message property of a parsed option, when it is a string. -/
def messageFieldOf (j : Json) : Option Str :=
  match j with
  | .obj f =>
    (match getField f (str "message") with
     | some (.str s) => some s
     | _ => none)
  | _ => none

instance decPrioritySorted (l : List CommitOption) : Decidable (prioritySorted l) := by
  unfold prioritySorted
  infer_instance

/-- A backend response with two well-formed option fragments and one
malformed trailing fragment; the whole text is not valid JSON. -/
def salvageSample : Str :=
  str "[\x7b\"type\":\"A\", \"description\":\"d\", \"message\":\"m\"\x7d, \x7b\"type\":\"B\",\"description\":\"\",\"message\":\"x\"\x7d, \x7b\"type\":"

/-- The first well-formed fragment of salvageSample, parsed. -/
def salvageFirst : Json :=
  Json.obj [(str "type", Json.str (str "A")), (str "description", Json.str (str "d")),
    (str "message", Json.str (str "m"))]

/-- The second well-formed fragment of salvageSample, parsed. -/
def salvageSecond : Json :=
  Json.obj [(str "type", Json.str (str "B")), (str "description", Json.str []),
    (str "message", Json.str (str "x"))]

/-- A minimal well-formed response: a JSON array of two valid options. -/
def roundTripSample : Str :=
  str "[\x7b\"type\":\"Emoji\",\"description\":\"short\",\"message\":\"m1\"\x7d,\x7b\"type\":\"Conventional\",\"description\":\"std\",\"message\":\"m2\"\x7d]"

/-- The same array wrapped in surrounding prose and Markdown code fences. -/
def roundTripWrapped : Str :=
  str "Sure! Here are two options:\n```json\n" ++ roundTripSample ++
    str "\n```\nHope this helps."

/-- A well-formed response whose single option has empty type and message
strings. -/
def emptyFieldsSample : Str :=
  str "[\x7b\"type\":\"\",\"description\":\"x\",\"message\":\"\"\x7d]"

/-- The option emptyFieldsSample parses to. -/
def emptyFieldsKept : Json :=
  Json.obj [(str "type", Json.str []), (str "description", Json.str (str "x")),
    (str "message", Json.str [])]

/-- A well-formed response with one valid option. -/
def validSampleInput : Str :=
  str "[\x7b\"type\":\"Emoji\",\"description\":\"d\",\"message\":\"m\"\x7d]"

/-- The option validSampleInput parses to. -/
def validSampleObj : Json :=
  Json.obj [(str "type", Json.str (str "Emoji")), (str "description", Json.str (str "d")),
    (str "message", Json.str (str "m"))]

/-! ## Theorems -/

set_option maxRecDepth 100000

/-- Non-content classification yields the fixed marker record, independent
of any diff input. -/
theorem processSingleChange_noncontent (p fn st : Str) (d : Option Str)
    (pf : Str → Except Unit Str) (h : categoryOf fn st ≠ Category.content) :
    processSingleChange p fn st d pf =
      ⟨p, statusFor (categoryOf fn st), markerFor (categoryOf fn st) p, 0, 0, 0, 0⟩ := by
  unfold categoryOf at h ⊢
  unfold processSingleChange
  by_cases hD : (str "D").isPrefixOf st
  · simp [hD, statusFor, markerFor]
  · by_cases hL : lockfileName fn
    · simp [hD, hL, statusFor, markerFor]
    · by_cases hB : hasBinaryExt fn
      · simp [hD, hL, hB, statusFor, markerFor]
      · by_cases hM : minifiedName fn
        · simp [hD, hL, hB, hM, statusFor, markerFor]
        · simp [hD, hL, hB, hM] at h

/-- A non-content marker contains no newline when the path contains none. -/
theorem markerFor_no_newline (cat : Category) (p : Str) (hp : '\n' ∉ p) :
    '\n' ∉ markerFor cat p := by
  cases cat with
  | deleted =>
    intro hmem
    rcases List.mem_append.1 hmem with h1 | h1
    · exact absurd h1 (by decide)
    · exact hp h1
  | lockfile =>
    intro hmem
    rcases List.mem_append.1 hmem with h1 | h1
    · rcases List.mem_append.1 h1 with h2 | h2
      · exact absurd h2 (by decide)
      · exact hp h2
    · exact absurd h1 (by decide)
  | binary =>
    intro hmem
    rcases List.mem_append.1 hmem with h1 | h1
    · exact absurd h1 (by decide)
    · exact hp h1
  | generated =>
    intro hmem
    rcases List.mem_append.1 hmem with h1 | h1
    · exact absurd h1 (by decide)
    · exact hp h1
  | content => simp [markerFor]

/-- Claim C2: a staged file classified into a non-content category
(deleted, lockfile, binary/asset, minified/generated) produces an entry
whose text is the fixed label-plus-path marker of its category — the same
entry whatever diff bytes are available, hence never any content — the
marker stays on a single line whenever the path has no newline, and the
classification agrees with the rule table applied in the priority order
deleted, lockfile, binary, generated, content. -/
theorem C2_noncontent_markers (relativePath fileName gitStatus : Str)
    (d d' : Option Str) (pf pf' : Str → Except Unit Str)
    (h : categoryOf fileName gitStatus ≠ Category.content) :
    processSingleChange relativePath fileName gitStatus d pf =
      processSingleChange relativePath fileName gitStatus d' pf' ∧
    (processSingleChange relativePath fileName gitStatus d pf).content =
      markerFor (categoryOf fileName gitStatus) relativePath ∧
    ('\n' ∉ relativePath →
      '\n' ∉ (processSingleChange relativePath fileName gitStatus d pf).content) ∧
    categoryOf fileName gitStatus = firstMatch classifierRules fileName gitStatus := by
  have h1 := processSingleChange_noncontent relativePath fileName gitStatus d pf h
  have h2 := processSingleChange_noncontent relativePath fileName gitStatus d' pf' h
  refine ⟨h1.trans h2.symm, ?_, ?_, ?_⟩
  · rw [h1]
  · intro hp
    rw [h1]
    exact markerFor_no_newline _ _ hp
  · simp only [categoryOf, firstMatch, classifierRules]

/-- Witness for C2 at a concrete binary asset: the entry is the binary
marker and is identical whether the diff bytes are available or not. -/
theorem C2_noncontent_markers_witness :
    processSingleChange (str "img.png") (str "img.png") (str "M") (some (str "RAWBYTES"))
        (fun _ => Except.ok (str "RAWBYTES")) =
      processSingleChange (str "img.png") (str "img.png") (str "M") none
        (fun _ => Except.error ()) ∧
    (processSingleChange (str "img.png") (str "img.png") (str "M") (some (str "RAWBYTES"))
        (fun _ => Except.ok (str "RAWBYTES"))).content =
      markerFor (categoryOf (str "img.png") (str "M")) (str "img.png") ∧
    ('\n' ∉ str "img.png" →
      '\n' ∉ (processSingleChange (str "img.png") (str "img.png") (str "M")
        (some (str "RAWBYTES")) (fun _ => Except.ok (str "RAWBYTES"))).content) ∧
    categoryOf (str "img.png") (str "M") =
      firstMatch classifierRules (str "img.png") (str "M") :=
  C2_noncontent_markers (str "img.png") (str "img.png") (str "M") (some (str "RAWBYTES"))
    none (fun _ => Except.ok (str "RAWBYTES")) (fun _ => Except.error ()) (by decide)

/-- Claim C9: a staged changeset whose file count exceeds the ceiling
short-circuits: the analysis result is exactly the placeholder list, it is
the same whatever the status, bulk-diff and per-file queries would have
returned (per-file classification touches none of them), and the formatter
sends the degraded stat summary downstream. -/
theorem C9_file_count_breaker (statusRes bulkRes statusRes' bulkRes' : Except Unit Str)
    (pf pf' : Str → Except Unit Str) (statRes : Except Unit Str) (changes : List Str)
    (h : MAX_FILES_FOR_DETAIL < changes.length) :
    analyzeChanges true statusRes bulkRes pf changes =
      some (changes.map tooManyPlaceholder) ∧
    analyzeChanges true statusRes bulkRes pf changes =
      analyzeChanges true statusRes' bulkRes' pf' changes ∧
    formatSmartDiff true statRes (changes.map tooManyPlaceholder) = getDiffStat statRes := by
  cases changes with
  | nil => simp [MAX_FILES_FOR_DETAIL] at h
  | cons c cs =>
    have hmap : ∀ (sr br : Except Unit Str) (pf0 : Str → Except Unit Str),
        analyzeChanges true sr br pf0 (c :: cs) = some ((c :: cs).map tooManyPlaceholder) := by
      intro sr br pf0
      unfold analyzeChanges
      have hdec : decide (MAX_FILES_FOR_DETAIL < (c :: cs).length) = true := by
        simpa using h
      simp only [Bool.not_true, Bool.false_eq_true, if_false, List.isEmpty_cons, hdec,
        Option.some.injEq]
      exact List.map_congr_left (fun a _ => by simp [classifyOne])
    have hmark : tooManyMarker (tooManyPlaceholder c) = true := rfl
    refine ⟨hmap _ _ _, (hmap _ _ _).trans (hmap _ _ _).symm, ?_⟩
    unfold formatSmartDiff
    simp [hmark]

/-- Witness for C9 at 101 staged files. -/
theorem C9_file_count_breaker_witness :
    analyzeChanges true (Except.error ()) (Except.error ()) (fun _ => Except.error ())
        (List.replicate 101 (str "f")) =
      some ((List.replicate 101 (str "f")).map tooManyPlaceholder) ∧
    analyzeChanges true (Except.error ()) (Except.error ()) (fun _ => Except.error ())
        (List.replicate 101 (str "f")) =
      analyzeChanges true (Except.ok (str "M\tf")) (Except.ok (str "d"))
        (fun _ => Except.ok (str "x")) (List.replicate 101 (str "f")) ∧
    formatSmartDiff true (Except.ok (str "S"))
        ((List.replicate 101 (str "f")).map tooManyPlaceholder) =
      getDiffStat (Except.ok (str "S")) :=
  C9_file_count_breaker (Except.error ()) (Except.error ()) (Except.ok (str "M\tf"))
    (Except.ok (str "d")) (fun _ => Except.error ()) (fun _ => Except.ok (str "x"))
    (Except.ok (str "S")) (List.replicate 101 (str "f")) (by decide)

/-- Counterexample to C10 as stated: a staged package-lock.json absent from
the status map does not fall through to the content-diff path — the
lockfile rule fires first and produces the one-line lockfile marker. -/
theorem C10_counterexample :
    analyzeChanges true (Except.ok []) (Except.ok []) (fun _ => Except.ok (str "+1"))
        [str "package-lock.json"] =
      some [⟨str "package-lock.json", str "锁文件",
        str "File Changed: package-lock.json (dependency lockfile update)", 0, 0, 0, 0⟩] ∧
    mapGet (getIndexStatuses (Except.ok [])) (str "package-lock.json") = none ∧
    categoryOf (str "package-lock.json") (str "M") ≠ Category.content :=
  ⟨rfl, rfl, by decide⟩

/-- Claim C10 as amended: a staged path missing from the status map is
classified with the defaulted status M, so it is never treated as deleted
or newly added; when additionally no name-based rule (lockfile, binary,
minified) captures it, it takes the content path and is truncated under the
1000-line modified-file threshold, not the 50-line new-file threshold. -/
theorem C10_amended_default_modified :
    (∀ (statusMap diffMap : List (Str × Str)) (pf : Str → Except Unit Str) (p : Str),
      mapGet statusMap p = none →
      classifyOne statusMap diffMap pf false p =
        processSingleChange p (basename p) (str "M") (mapGet diffMap p) pf) ∧
    (∀ (p fn d : Str) (pf : Str → Except Unit Str),
      lockfileName fn = false → hasBinaryExt fn = false → minifiedName fn = false →
      d.isEmpty = false →
      ((processSingleChange p fn (str "M") (some d) pf).status = str "完整" ∨
       (processSingleChange p fn (str "M") (some d) pf).status = str "已截断") ∧
      ((processSingleChange p fn (str "M") (some d) pf).status = str "已截断" ↔
        1000 < (splitOnChar '\n' d).length)) := by
  constructor
  · intro sm dm pf p hnone
    unfold classifyOne
    simp [hnone]
  · intro p fn d pf hl hb hm hd
    unfold processSingleChange
    have hD : (str "D").isPrefixOf (str "M") = false := by decide
    have hMA : ¬ (str "M" = str "A" ∧ 50 < (splitOnChar '\n' d).length) := by
      rintro ⟨he, _⟩
      exact absurd he (by decide)
    simp only [hD, hl, hb, hm, hd, Bool.false_eq_true, if_false, if_neg hMA]
    by_cases h1000 : 1000 < (splitOnChar '\n' d).length
    · simp only [if_pos h1000]
      exact ⟨Or.inr trivial, by simp [h1000]⟩
    · simp only [if_neg h1000]
      refine ⟨Or.inl trivial, ?_⟩
      constructor
      · intro habs
        exact absurd habs (by decide)
      · intro habs
        exact absurd habs h1000

/-- Witness for C10 as amended, at a plain source file missing from the
status map: the entry is the full content entry, not a deletion or
new-file truncation. -/
theorem C10_amended_default_modified_witness :
    classifyOne [] [(str "a.ts", str "+x")] (fun _ => Except.error ()) false (str "a.ts") =
      processSingleChange (str "a.ts") (basename (str "a.ts")) (str "M")
        (mapGet [(str "a.ts", str "+x")] (str "a.ts")) (fun _ => Except.error ()) ∧
    ((processSingleChange (str "a.ts") (str "a.ts") (str "M") (some (str "+x"))
        (fun _ => Except.error ())).status = str "完整" ∨
     (processSingleChange (str "a.ts") (str "a.ts") (str "M") (some (str "+x"))
        (fun _ => Except.error ())).status = str "已截断") :=
  ⟨(C10_amended_default_modified.1 [] [(str "a.ts", str "+x")] (fun _ => Except.error ())
      (str "a.ts") rfl),
   ((C10_amended_default_modified.2 (str "a.ts") (str "a.ts") (str "+x")
      (fun _ => Except.error ()) rfl rfl rfl rfl).1)⟩

/-- Counterexample to C4 as stated: with the repository present, both the
status query and the bulk-diff query failing, and even the per-file diff
query failing, the collector still produces a FileChange list (an
error-marker content entry) instead of aborting with a collection error. -/
theorem C4_counterexample :
    analyzeChanges true (Except.error ()) (Except.error ()) (fun _ => Except.error ())
        [str "a.ts"] =
      some [⟨str "a.ts", str "完整", str "File: a.ts (Error reading diff)", 0, 0, 0, 0⟩] :=
  rfl

/-- Claim C4 as amended: a failing status query yields the empty status map
and a failing bulk-diff query the empty diff map — both are swallowed, the
pipeline continues, and a list is still produced (statuses default to M and
per-file diffs are re-queried or error-marked); only a missing repository
(or an empty changeset) aborts, by returning the null signal rather than an
error. -/
theorem C4_amended_error_swallowing :
    (∀ (pf : Str → Except Unit Str) (changes : List Str) (sr br : Except Unit Str),
      analyzeChanges false sr br pf changes = none) ∧
    getIndexStatuses (Except.error ()) = [] ∧
    getAllDiffs (Except.error ()) = [] ∧
    (∀ (changes : List Str), changes ≠ [] →
      analyzeChanges true (Except.error ()) (Except.error ()) (fun _ => Except.error ())
          changes =
        some (changes.map (fun p =>
          if MAX_FILES_FOR_DETAIL < changes.length then tooManyPlaceholder p
          else processSingleChange p (basename p) (str "M") none (fun _ => Except.error ())))) := by
  refine ⟨fun pf changes sr br => rfl, rfl, rfl, ?_⟩
  intro changes hne
  unfold analyzeChanges
  have hisE : changes.isEmpty = false := by
    cases changes with
    | nil => exact absurd rfl hne
    | cons c cs => rfl
  simp only [Bool.not_true, Bool.false_eq_true, if_false, hisE, Option.some.injEq]
  refine List.map_congr_left (fun a _ => ?_)
  by_cases htm : MAX_FILES_FOR_DETAIL < changes.length
  · simp [classifyOne, htm]
  · simp [classifyOne, htm, mapGet, getIndexStatuses, getAllDiffs]

/-- Witness for C4 as amended at one staged file with every query failing. -/
theorem C4_amended_error_swallowing_witness :
    analyzeChanges false (Except.error ()) (Except.error ()) (fun _ => Except.error ())
        [str "a.ts"] = none ∧
    analyzeChanges true (Except.error ()) (Except.error ()) (fun _ => Except.error ())
        [str "a.ts"] =
      some ([str "a.ts"].map (fun p =>
        if MAX_FILES_FOR_DETAIL < ([str "a.ts"] : List Str).length then tooManyPlaceholder p
        else processSingleChange p (basename p) (str "M") none (fun _ => Except.error ()))) :=
  ⟨C4_amended_error_swallowing.1 (fun _ => Except.error ()) [str "a.ts"]
      (Except.error ()) (Except.error ()),
   C4_amended_error_swallowing.2.2.2 [str "a.ts"] (by simp)⟩

/-- The running accumulated length is monotone in the processed prefix. -/
theorem entriesLen_take_mono (cs : List SmartChange) (k : Nat) :
    entriesLen (cs.take k) ≤ entriesLen (cs.take (k + 1)) := by
  rw [List.take_succ]
  simp only [entriesLen, List.map_append, List.sum_append]
  omega

/-- A successful accumulation is bounded: either within one newline of the
budget, or the untouched initial accumulator. -/
theorem formatLoop_some (M : Nat) :
    ∀ (cs : List SmartChange) (acc out : Str),
      formatLoop M cs acc = some out → out.length ≤ M + 1 ∨ out = acc := by
  intro cs
  induction cs with
  | nil =>
    intro acc out h
    right
    exact (Option.some.inj h).symm
  | cons c t ih =>
    intro acc out h
    unfold formatLoop at h
    by_cases hg : acc.length + c.content.length > M
    · rw [if_pos hg] at h
      cases h
    · rw [if_neg hg] at h
      rcases ih _ _ h with h1 | h1
      · exact Or.inl h1
      · left
        rw [h1]
        simp only [List.length_append, List.length_cons, List.length_nil]
        omega

/-- A successful accumulation is empty or ends with the separating
newline. -/
theorem formatLoop_ends_newline (M : Nat) :
    ∀ (cs : List SmartChange) (acc out : Str),
      (acc = [] ∨ ∃ t, acc = t ++ ['\n']) →
      formatLoop M cs acc = some out → out = [] ∨ ∃ t, out = t ++ ['\n'] := by
  intro cs
  induction cs with
  | nil =>
    intro acc out hacc h
    rw [← Option.some.inj h]
    exact hacc
  | cons c t ih =>
    intro acc out hacc h
    unfold formatLoop at h
    by_cases hg : acc.length + c.content.length > M
    · rw [if_pos hg] at h
      cases h
    · rw [if_neg hg] at h
      exact ih _ _ (Or.inr ⟨acc ++ c.content, rfl⟩) h

/-- Trimming never lengthens. -/
theorem jsTrim_length_le (s : Str) : (jsTrim s).length ≤ s.length := by
  unfold jsTrim
  rw [List.length_reverse]
  calc ((s.dropWhile isJsWs).reverse.dropWhile isJsWs).length
      ≤ (s.dropWhile isJsWs).reverse.length :=
        (List.dropWhile_sublist _).length_le
    _ = (s.dropWhile isJsWs).length := List.length_reverse _
    _ ≤ s.length := (List.dropWhile_sublist _).length_le

/-- Trimming a string that ends with a newline also removes that final
character. -/
theorem jsTrim_append_newline (t : Str) : (jsTrim (t ++ ['\n'])).length ≤ t.length := by
  unfold jsTrim
  rcases hcase : (t ++ ['\n']).dropWhile isJsWs with _ | ⟨u0, urest⟩
  · simp
  · have hsuff : (u0 :: urest) <:+ (t ++ ['\n']) := by
      rw [← hcase]
      exact List.dropWhile_suffix _
    rcases List.eq_nil_or_concat (u0 :: urest) with hnil | ⟨v, b, hv⟩
    · cases hnil
    · have hb : b = '\n' := by
        rcases hsuff with ⟨w, hw⟩
        rw [hv, List.concat_eq_append] at hw
        have hw2 : (w ++ v) ++ [b] = t ++ ['\n'] := by
          rw [List.append_assoc]
          exact hw
        have := List.append_inj' hw2 rfl
        simpa using this.2
      have hvlen : v.length + 1 ≤ t.length + 1 := by
        have := hsuff.length_le
        rw [hv] at this
        simpa using this
      rw [hv, hb, List.concat_eq_append, List.reverse_append]
      simp only [List.reverse_cons, List.reverse_nil, List.nil_append, List.singleton_append]
      have hws : isJsWs '\n' = true := rfl
      rw [List.dropWhile_cons_of_pos hws, List.length_reverse]
      calc (v.reverse.dropWhile isJsWs).length
          ≤ v.reverse.length := (List.dropWhile_sublist _).length_le
        _ = v.length := List.length_reverse _
        _ ≤ t.length := by omega

/-- An entry alone longer than the budget always fires the breaker. -/
theorem formatLoop_oversized (M : Nat) :
    ∀ (cs : List SmartChange) (acc : Str) (c : SmartChange),
      c ∈ cs → M < c.content.length → formatLoop M cs acc = none := by
  intro cs
  induction cs with
  | nil =>
    intro acc c hc
    cases hc
  | cons c0 t ih =>
    intro acc c hc hbig
    unfold formatLoop
    by_cases hg : acc.length + c0.content.length > M
    · rw [if_pos hg]
    · rw [if_neg hg]
      rcases List.mem_cons.1 hc with rfl | hmem
      · exact absurd (by omega : acc.length + c.content.length > M) hg
      · exact ih _ c hmem hbig

/-- Claim C1: the budgeter accumulates entries in collector order with a
monotonically non-decreasing running length; a successful accumulation is
handed downstream trimmed and within the budget; when the loop detects that
the next entry would overflow it stops and the formatter returns the
degraded stat summary instead; and a single entry longer than the budget
always fires the breaker, so an oversized payload is never handed
downstream. -/
theorem C1_size_breaker (statRes : Except Unit Str) (changes : List SmartChange) :
    (∀ k, entriesLen (changes.take k) ≤ entriesLen (changes.take (k + 1))) ∧
    (∀ out, formatLoop MAX_CHARS changes [] = some out →
      (jsTrim out).length ≤ MAX_CHARS ∧
      (changes.isEmpty = false → changes.any tooManyMarker = false →
        formatSmartDiff true statRes changes = jsTrim out)) ∧
    (formatLoop MAX_CHARS changes [] = none →
      changes.any tooManyMarker = false →
      formatSmartDiff true statRes changes = getDiffStat statRes) ∧
    (∀ c ∈ changes, MAX_CHARS < c.content.length →
      formatLoop MAX_CHARS changes [] = none) := by
  refine ⟨fun k => entriesLen_take_mono _ _, ?_, ?_, ?_⟩
  · intro out hout
    constructor
    · rcases formatLoop_ends_newline MAX_CHARS changes [] out (Or.inl rfl) hout with h0 | ⟨t, ht⟩
      · rw [h0]
        simp [jsTrim]
      · rcases formatLoop_some MAX_CHARS changes [] out hout with h1 | h1
        · rw [ht] at h1 ⊢
          have h2 := jsTrim_append_newline t
          have h3 : t.length + 1 ≤ MAX_CHARS + 1 := by simpa using h1
          omega
        · rw [h1]
          simp [jsTrim]
    · intro hne hany
      unfold formatSmartDiff
      simp [hne, hany, hout]
  · intro hnone hany
    have hne : changes.isEmpty = false := by
      cases changes with
      | nil => simp [formatLoop] at hnone
      | cons a b => rfl
    unfold formatSmartDiff
    simp [hne, hany, hnone]
  · intro c hc hbig
    exact formatLoop_oversized MAX_CHARS changes [] c hc hbig

/-- Witness for C1 at a one-entry changeset: the accumulated entry passes
the budget and is handed downstream trimmed. -/
theorem C1_size_breaker_witness :
    entriesLen (([⟨str "a", str "完整", str "File: a\n+x", 1, 0, 9, 3⟩] :
        List SmartChange).take 0) ≤
      entriesLen (([⟨str "a", str "完整", str "File: a\n+x", 1, 0, 9, 3⟩] :
        List SmartChange).take 1) ∧
    (jsTrim (str "File: a\n+x" ++ ['\n'])).length ≤ MAX_CHARS ∧
    formatSmartDiff true (Except.ok (str "S"))
        [⟨str "a", str "完整", str "File: a\n+x", 1, 0, 9, 3⟩] =
      jsTrim (str "File: a\n+x" ++ ['\n']) :=
  ⟨(C1_size_breaker (Except.ok (str "S"))
      [⟨str "a", str "完整", str "File: a\n+x", 1, 0, 9, 3⟩]).1 0,
   ((C1_size_breaker (Except.ok (str "S"))
      [⟨str "a", str "完整", str "File: a\n+x", 1, 0, 9, 3⟩]).2.1
      (str "File: a\n+x" ++ ['\n']) rfl).1,
   ((C1_size_breaker (Except.ok (str "S"))
      [⟨str "a", str "完整", str "File: a\n+x", 1, 0, 9, 3⟩]).2.1
      (str "File: a\n+x" ++ ['\n']) rfl).2 rfl rfl⟩

/-- The new-file truncation branch, characterized: status A and more than
50 lines produce the 25-head, 25-tail entry with the counted skip marker. -/
theorem processSingleChange_newTrunc (p fn d : Str) (pf : Str → Except Unit Str)
    (hl : lockfileName fn = false) (hb : hasBinaryExt fn = false)
    (hm : minifiedName fn = false) (hd : d.isEmpty = false)
    (h50 : 50 < (splitOnChar '\n' d).length) :
    processSingleChange p fn (str "A") (some d) pf =
      ⟨p, str "新增(已截断)",
        str "File: " ++ p ++ str " (New File Truncated)\n" ++
          joinSep '\n' ((splitOnChar '\n' d).take 25) ++
          str "\n... (middle " ++ natStr ((splitOnChar '\n' d).length - 50) ++
          str " lines skipped) ...\n" ++ joinSep '\n' (lastN 25 (splitOnChar '\n' d)),
        countAdditions (splitOnChar '\n' d), countDeletions (splitOnChar '\n' d),
        d.length, (d.length + 3) / 4⟩ := by
  unfold processSingleChange
  have hD : (str "D").isPrefixOf (str "A") = false := by decide
  simp only [hD, hl, hb, hm, hd, Bool.false_eq_true, if_false]
  rw [if_pos ⟨trivial, h50⟩]

/-- The modified-file truncation branch, characterized: no new-file
trigger and more than 1000 lines produce the 800-head, 50-tail entry with
the fixed countless skip marker. -/
theorem processSingleChange_modTrunc (p fn st d : Str) (pf : Str → Except Unit Str)
    (hD : (str "D").isPrefixOf st = false)
    (hl : lockfileName fn = false) (hb : hasBinaryExt fn = false)
    (hm : minifiedName fn = false) (hd : d.isEmpty = false)
    (hA : ¬ (st = str "A" ∧ 50 < (splitOnChar '\n' d).length))
    (h1000 : 1000 < (splitOnChar '\n' d).length) :
    processSingleChange p fn st (some d) pf =
      ⟨p, str "已截断",
        str "File: " ++ p ++ str "\n" ++ joinSep '\n' ((splitOnChar '\n' d).take 800) ++
          str "\n... (content skipped) ...\n" ++ joinSep '\n' (lastN 50 (splitOnChar '\n' d)),
        countAdditions (splitOnChar '\n' d), countDeletions (splitOnChar '\n' d),
        d.length, (d.length + 3) / 4⟩ := by
  unfold processSingleChange
  simp only [hD, hl, hb, hm, hd, Bool.false_eq_true, if_false, if_neg hA]
  rw [if_pos h1000]

/-- Counterexample to C6 as stated: a modified file of 1001 diff lines is
truncated, but its skip marker is the fixed countless text — it does not
state the count 1001 − 800 − 50 = 151 (no digit of it appears). -/
theorem C6_counterexample :
    ((fun r =>
        (r.status == str "已截断") &&
        containsSub r.content (str "(content skipped)") &&
        !(containsSub r.content (str "151")))
      (processSingleChange (str "m.ts") (str "m.ts") (str "M")
        (some (joinSep '\n' (List.replicate 1001 (str "x")))) (fun _ => Except.error ()))) =
      true ∧
    (splitOnChar '\n' (joinSep '\n' (List.replicate 1001 (str "x")))).length = 1001 ∧
    1001 - 800 - 50 = 151 :=
  ⟨rfl, rfl, rfl⟩

/-- Claim C6 as amended: a newly added file over 50 lines keeps exactly 25
head and 25 tail lines with a marker counting total − 50 = total − 25 − 25
skipped lines; a modified file over 1000 lines keeps exactly 800 head and
50 tail lines, with the fixed marker that states no count. -/
theorem C6_amended_truncation (p fn d : Str) (pf : Str → Except Unit Str)
    (hl : lockfileName fn = false) (hb : hasBinaryExt fn = false)
    (hm : minifiedName fn = false) (hd : d.isEmpty = false) :
    (50 < (splitOnChar '\n' d).length →
      processSingleChange p fn (str "A") (some d) pf =
        ⟨p, str "新增(已截断)",
          str "File: " ++ p ++ str " (New File Truncated)\n" ++
            joinSep '\n' ((splitOnChar '\n' d).take 25) ++
            str "\n... (middle " ++ natStr ((splitOnChar '\n' d).length - 50) ++
            str " lines skipped) ...\n" ++ joinSep '\n' (lastN 25 (splitOnChar '\n' d)),
          countAdditions (splitOnChar '\n' d), countDeletions (splitOnChar '\n' d),
          d.length, (d.length + 3) / 4⟩ ∧
      ((splitOnChar '\n' d).take 25).length = 25 ∧
      (lastN 25 (splitOnChar '\n' d)).length = 25 ∧
      (splitOnChar '\n' d).length - 50 = (splitOnChar '\n' d).length - 25 - 25) ∧
    (1000 < (splitOnChar '\n' d).length →
      processSingleChange p fn (str "M") (some d) pf =
        ⟨p, str "已截断",
          str "File: " ++ p ++ str "\n" ++ joinSep '\n' ((splitOnChar '\n' d).take 800) ++
            str "\n... (content skipped) ...\n" ++
            joinSep '\n' (lastN 50 (splitOnChar '\n' d)),
          countAdditions (splitOnChar '\n' d), countDeletions (splitOnChar '\n' d),
          d.length, (d.length + 3) / 4⟩ ∧
      ((splitOnChar '\n' d).take 800).length = 800 ∧
      (lastN 50 (splitOnChar '\n' d)).length = 50) := by
  constructor
  · intro h50
    refine ⟨processSingleChange_newTrunc p fn d pf hl hb hm hd h50, ?_, ?_, ?_⟩
    · rw [List.length_take]
      omega
    · unfold lastN
      rw [List.length_drop]
      omega
    · omega
  · intro h1000
    have hA : ¬ (str "M" = str "A" ∧ 50 < (splitOnChar '\n' d).length) := by
      rintro ⟨he, _⟩
      exact absurd he (by decide)
    refine ⟨processSingleChange_modTrunc p fn (str "M") d pf (by decide) hl hb hm hd hA h1000,
      ?_, ?_⟩
    · rw [List.length_take]
      omega
    · unfold lastN
      rw [List.length_drop]
      omega

/-- Witness for C6 as amended at a 51-line added file. -/
theorem C6_amended_truncation_witness :
    ((splitOnChar '\n' (joinSep '\n' (List.replicate 51 (str "x")))).take 25).length = 25 ∧
    (lastN 25 (splitOnChar '\n' (joinSep '\n' (List.replicate 51 (str "x"))))).length = 25 ∧
    (processSingleChange (str "n.ts") (str "n.ts") (str "A")
        (some (joinSep '\n' (List.replicate 51 (str "x")))) (fun _ => Except.error ())).status =
      str "新增(已截断)" := by
  have h := (C6_amended_truncation (str "n.ts") (str "n.ts")
    (joinSep '\n' (List.replicate 51 (str "x"))) (fun _ => Except.error ())
    rfl rfl rfl rfl).1 (by decide)
  refine ⟨h.2.1, h.2.2.1, ?_⟩
  rw [h.1]

/-- Inserting an option whose priority dominates a list appends it. -/
theorem insertByPriority_of_le (o : CommitOption) :
    ∀ (l : List CommitOption),
      (∀ y ∈ l, typePriority y.type ≤ typePriority o.type) →
      insertByPriority o l = l ++ [o] := by
  intro l
  induction l with
  | nil => intro _; rfl
  | cons a t ih =>
    intro h
    unfold insertByPriority
    rw [if_pos (h a (List.mem_cons_self a t))]
    rw [ih (fun y hy => h y (List.mem_cons_of_mem a hy))]
    rfl

/-- The stable insertion sort leaves an already canonically ordered list
unchanged. -/
theorem sortOptions_sorted_id :
    ∀ (l : List CommitOption), prioritySorted l → sortOptions l = l := by
  intro l
  induction l using List.reverseRecOn with
  | nil => intro _; rfl
  | append_singleton t x ih =>
    intro h
    unfold prioritySorted at h
    rw [List.pairwise_append] at h
    unfold sortOptions at ih ⊢
    rw [List.foldl_append, List.foldl_cons, List.foldl_nil, ih h.1]
    exact insertByPriority_of_le x t
      (fun y hy => h.2.2 y hy x (List.mem_singleton_self x))

/-- The defined entries of a spliced-in prefix are the prefix itself. -/
theorem filterMap_id_map_some (l : List CommitOption) :
    (l.map some).filterMap id = l := by
  induction l with
  | nil => rfl
  | cons a t ih => simp [ih]

/-- A spliced-in prefix holds no undefined entry. -/
theorem count_none_map_some (l : List CommitOption) :
    (l.map some).count none = 0 := by
  rw [List.count_eq_zero]
  simp

/-- Counterexample to C5 as stated: with the fast branch returning options
out of canonical order, the final accumulator differs between the two
completion orders; the list published right after the fast completion is
not canonically sorted (the fast branch does not re-sort); and a deep
branch that fails does not contribute nothing — its completion pushes the
undefined first element of the empty result list, which the sort moves to
the end and the callback observes. -/
theorem C5_counterexample :
    runSchedule [⟨str "Conventional", [], []⟩, ⟨str "Emoji", [], []⟩]
        [⟨str "Detailed", [], []⟩] [BranchEvent.fastDone, BranchEvent.deepDone] ≠
      runSchedule [⟨str "Conventional", [], []⟩, ⟨str "Emoji", [], []⟩]
        [⟨str "Detailed", [], []⟩] [BranchEvent.deepDone, BranchEvent.fastDone] ∧
    ¬ prioritySorted ((runSchedule [⟨str "Conventional", [], []⟩, ⟨str "Emoji", [], []⟩]
        [⟨str "Detailed", [], []⟩] [BranchEvent.fastDone]).filterMap id) ∧
    runSchedule [⟨str "Conventional", [], []⟩, ⟨str "Emoji", [], []⟩] []
        [BranchEvent.deepDone, BranchEvent.fastDone] =
      [some ⟨str "Conventional", [], []⟩, some ⟨str "Emoji", [], []⟩, none] := by
  decide

/-- Claim C5 as amended: the re-sort happens only on deep-branch
completion, and the deep branch always pushes one slot — its first option,
or the undefined hole when its call failed and resolved with the empty
list. Completion-order independence holds exactly when the fast branch's
options followed by the deep branch's first option (if any) are already in
canonical priority order, as the prompts request; both completion orders
then deliver the fast options followed by that one deep slot. -/
theorem C5_amended_order_independence (fastOpts deepOpts : List CommitOption)
    (h : prioritySorted (fastOpts ++ deepOpts.take 1)) :
    runSchedule fastOpts deepOpts [BranchEvent.fastDone, BranchEvent.deepDone] =
      fastOpts.map some ++ [deepOpts.head?] ∧
    runSchedule fastOpts deepOpts [BranchEvent.deepDone, BranchEvent.fastDone] =
      fastOpts.map some ++ [deepOpts.head?] := by
  cases deepOpts with
  | nil =>
    have hs : sortOptions fastOpts = fastOpts :=
      sortOptions_sorted_id _ (by simpa using h)
    have h0 : sortOptions [] = [] := rfl
    constructor
    · simp [runSchedule, branchStep, jsSortWithHoles, List.filterMap_append,
        filterMap_id_map_some, count_none_map_some, hs]
    · simp [runSchedule, branchStep, jsSortWithHoles, List.filterMap_append,
        filterMap_id_map_some, count_none_map_some, hs, h0]
  | cons o rest =>
    have hs : sortOptions (fastOpts ++ [o]) = fastOpts ++ [o] :=
      sortOptions_sorted_id _ (by simpa using h)
    have h1 : sortOptions [o] = [o] := rfl
    constructor
    · simp [runSchedule, branchStep, jsSortWithHoles, List.filterMap_append,
        filterMap_id_map_some, count_none_map_some, hs]
    · simp [runSchedule, branchStep, jsSortWithHoles, List.filterMap_append,
        filterMap_id_map_some, count_none_map_some, h1]

/-- Witness for C5 as amended at canonically ordered fast output and a
failed deep branch: both completion orders deliver the fast options
followed by the undefined slot. -/
theorem C5_amended_order_independence_witness :
    runSchedule [⟨str "Emoji", [], []⟩, ⟨str "Conventional", [], []⟩] []
        [BranchEvent.fastDone, BranchEvent.deepDone] =
      ([⟨str "Emoji", [], []⟩, ⟨str "Conventional", [], []⟩] : List CommitOption).map some ++
        [([] : List CommitOption).head?] ∧
    runSchedule [⟨str "Emoji", [], []⟩, ⟨str "Conventional", [], []⟩] []
        [BranchEvent.deepDone, BranchEvent.fastDone] =
      ([⟨str "Emoji", [], []⟩, ⟨str "Conventional", [], []⟩] : List CommitOption).map some ++
        [([] : List CommitOption).head?] :=
  C5_amended_order_independence [⟨str "Emoji", [], []⟩, ⟨str "Conventional", [], []⟩] []
    (by decide)

/-- Every option the salvage fold accumulates passed the validator. -/
theorem salvageFold_valid :
    ∀ (ms : List Str) (acc : List Json),
      (∀ j ∈ acc, isValidCommitOption j = true) →
      ∀ j ∈ ms.foldl (fun results m =>
          match jsonParse m with
          | some o => if isValidCommitOption o then results ++ [o] else results
          | none => results) acc,
        isValidCommitOption j = true := by
  intro ms
  induction ms with
  | nil =>
    intro acc hacc j hj
    exact hacc j hj
  | cons m t ih =>
    intro acc hacc j hj
    rw [List.foldl_cons] at hj
    refine ih _ ?_ j hj
    intro j2 hj2
    cases hp : jsonParse m with
    | none =>
      rw [hp] at hj2
      exact hacc j2 hj2
    | some o =>
      rw [hp] at hj2
      have hj3 : j2 ∈ (if isValidCommitOption o then acc ++ [o] else acc) := hj2
      by_cases hv : isValidCommitOption o
      · rw [if_pos hv] at hj3
        rcases List.mem_append.1 hj3 with h1 | h1
        · exact hacc j2 h1
        · rcases List.mem_singleton.1 h1 with rfl
          exact hv
      · rw [if_neg hv] at hj3
        exact hacc j2 hj3

/-- Everything the salvage path returns passed the validator. -/
theorem fallbackParse_all_valid (content : Str) :
    ∀ j ∈ fallbackParse content, isValidCommitOption j = true := by
  intro j hj
  exact salvageFold_valid (regexMatches content) [] (fun _ h => absurd h (List.not_mem_nil _)) j hj

/-- Claim C3: the response parser is total — when the primary parse of the
cleaned text fails it hands the original content to the salvage parse, and
when the salvage scan matches nothing the result is the empty list; on the
sample response holding two well-formed option fragments and a malformed
trailing fragment, the primary parse fails and exactly the two well-formed
options are returned. -/
theorem C3_parse_never_throws :
    (∀ content, jsonParse (cleanedOf content) = none →
      parseResponse content = fallbackParse content) ∧
    (∀ content, regexMatches content = [] → fallbackParse content = []) ∧
    jsonParse (cleanedOf salvageSample) = none ∧
    parseResponse salvageSample = [salvageFirst, salvageSecond] := by
  refine ⟨?_, ?_, rfl, rfl⟩
  · intro content h
    unfold parseResponse
    rw [h]
  · intro content h
    unfold fallbackParse
    rw [h]
    rfl

/-- Witness for C3 at a response with no JSON at all: the primary parse
fails, salvage finds nothing, the result is empty. -/
theorem C3_parse_never_throws_witness :
    parseResponse (str "No JSON here at all") = fallbackParse (str "No JSON here at all") ∧
    fallbackParse (str "No JSON here at all") = [] :=
  ⟨C3_parse_never_throws.1 (str "No JSON here at all") rfl,
   C3_parse_never_throws.2.1 (str "No JSON here at all") rfl⟩

/-- Claim C7: the parser round-trips — the minimal well-formed array of two
valid options yields a validated two-element list, and the same array
wrapped in prose and Markdown code fences yields the identical list. -/
theorem C7_round_trip :
    parseResponse roundTripWrapped = parseResponse roundTripSample ∧
    (parseResponse roundTripSample).length = 2 ∧
    (parseResponse roundTripSample).all isValidCommitOption = true :=
  ⟨rfl, rfl, rfl⟩

/-- Counterexample to C8 as stated: an option whose type and message are
empty strings is not discarded — the validator only checks that the fields
are strings, so the element with empty type and message is returned. -/
theorem C8_counterexample :
    parseResponse emptyFieldsSample = [emptyFieldsKept] ∧
    typeFieldOf emptyFieldsKept = some [] ∧
    messageFieldOf emptyFieldsKept = some [] ∧
    isValidCommitOption emptyFieldsKept = true :=
  ⟨rfl, rfl, rfl, rfl⟩

/-- Claim C8 as amended: every element the parser returns — on the primary
path (array filtering, single-object promotion) and on the salvage path
alike — has type and message properties that are present strings, possibly
empty. -/
theorem C8_amended_validation :
    ∀ (content : Str), ∀ j ∈ parseResponse content, isValidCommitOption j = true := by
  intro content j hj
  unfold parseResponse at hj
  cases hpar : jsonParse (cleanedOf content) with
  | none =>
    rw [hpar] at hj
    exact fallbackParse_all_valid content j hj
  | some v =>
    rw [hpar] at hj
    cases v with
    | null => cases hj
    | bool b => cases hj
    | num r => cases hj
    | str s2 => cases hj
    | arr xs => exact List.of_mem_filter hj
    | obj fields =>
      have hj3 : j ∈ (if isValidCommitOption (Json.obj fields)
          then [Json.obj fields] else []) := hj
      by_cases hv : isValidCommitOption (Json.obj fields)
      · rw [if_pos hv] at hj3
        rcases List.mem_singleton.1 hj3 with rfl
        exact hv
      · rw [if_neg hv] at hj3
        cases hj3

/-- Witness for C8 as amended at a concrete valid response. -/
theorem C8_amended_validation_witness :
    isValidCommitOption validSampleObj = true :=
  C8_amended_validation validSampleInput validSampleObj (by
    have h : parseResponse validSampleInput = [validSampleObj] := rfl
    rw [h]
    exact List.mem_singleton.mpr rfl)

end FusiTools
